import Mathlib

/-!
Verification of the retrieval / reranking / adaptive-evaluation / confidence-gating
pipeline of the VetRec backend, as a shallow embedding in Lean 4.

Sources embedded here:
* `backend/api/extract.py` — `_determine_confidence_level`, the transcript-first
  evaluation stage of `extract_medical_actions`, and the confidence-gated
  persistence / response logic;
* `backend/utils/embedding_service.py` — `_normalize_text`,
  `find_similar_transcripts`, `find_similar_transcripts_optimized`,
  `find_similar_transcripts_with_reranker`;
* `backend/utils/reranker_service.py` — `rerank_transcripts`;
* `backend/utils/smart_context_selector.py` — the multi-factor scoring and
  greedy context selection, and `build_memory_context_with_extractions`;
* `backend/utils/embedding_cache.py` — `put` / `get_similar`.

Python floats are modelled by `ℚ` (all constants in the code are decimal
literals, so arithmetic on them is exact), Python strings by `String` /
`List Char`, the ChromaDB collections by explicit lists of records carrying the
native distance of each record to the (fixed) query embedding, and the external
model calls (embedding model, cross-encoder, LLM) by function parameters, as the
specification treats them as black boxes.
-/

/- Batteries marks rational arithmetic `@[irreducible]`; concrete evaluations in
witnesses and counterexamples below need it to reduce. -/
attribute [local semireducible] Rat.add Rat.mul Rat.sub Rat.inv Rat.ofScientific

namespace VetRec

/-! ## Confidence Resolver (`backend/api/extract.py`, `_determine_confidence_level`)

The source reads `best_similarity`, and `overall_score` / `confidence_level`
from the single- or aggregated-result evaluation object; the cascade below is
the body of the function for a summary that carries all three values. -/

def determineConfidenceLevel (overallScore : ℚ) (confidenceLevel : String)
    (bestSimilarity : ℚ) : String :=
  if 9/10 ≤ overallScore ∧ 9/10 ≤ bestSimilarity then "high"
  else if confidenceLevel = "high" ∧ 8/10 ≤ overallScore ∧ 7/10 ≤ bestSimilarity then "high"
  else if confidenceLevel = "medium" ∧ 6/10 ≤ overallScore ∧ 5/10 ≤ bestSimilarity then "medium"
  else if confidenceLevel = "high" ∧ 8/10 ≤ bestSimilarity then "high"
  else if 85/100 ≤ overallScore ∧ 8/10 ≤ bestSimilarity then "high"
  else if 7/10 ≤ overallScore ∧ 6/10 ≤ bestSimilarity then "medium"
  else "low"

/-- The rule cascade exactly as the specification words it (spec §4.7):
seven rules evaluated in order, first match wins. -/
def specConfidenceCascade (overallScore : ℚ) (confidenceLevel : String)
    (bestSimilarity : ℚ) : String :=
  if 9/10 ≤ overallScore ∧ 9/10 ≤ bestSimilarity then "high"
  else if confidenceLevel = "high" ∧ 8/10 ≤ overallScore ∧ 7/10 ≤ bestSimilarity then "high"
  else if confidenceLevel = "medium" ∧ 6/10 ≤ overallScore ∧ 5/10 ≤ bestSimilarity then "medium"
  else if confidenceLevel = "high" ∧ 8/10 ≤ bestSimilarity then "high"
  else if 85/100 ≤ overallScore ∧ 8/10 ≤ bestSimilarity then "high"
  else if 7/10 ≤ overallScore ∧ 6/10 ≤ bestSimilarity then "medium"
  else "low"

/-- Claim C1: the Confidence Resolver returns exactly the tier of the
spec's seven-rule cascade evaluated in order with first match winning; in
particular `overallScore = 0.95, bestSimilarity = 0.95` yields `high` for every
`llmConfidenceLevel`, and `overallScore = 0.5, bestSimilarity = 0.4,
llmConfidenceLevel = low` yields `low`. -/
theorem confidence_resolver_cascade :
    (∀ (o : ℚ) (c : String) (b : ℚ),
        determineConfidenceLevel o c b = specConfidenceCascade o c b) ∧
    (∀ c : String, determineConfidenceLevel (95/100) c (95/100) = "high") ∧
    determineConfidenceLevel (5/10) "low" (4/10) = "low" := by
  refine ⟨fun o c b => rfl, fun c => ?_, by decide⟩
  unfold determineConfidenceLevel
  rw [if_pos (by norm_num : (9:ℚ)/10 ≤ 95/100 ∧ (9:ℚ)/10 ≤ 95/100)]

/-! ## Stable sorting by a rational key

`list.sort(key=…, reverse=True)` in Python is a stable sort; we model it with
a stable insertion sort, parameterised by the predicate that lets an existing
element stay in front of the element being inserted. -/

section Sorting

variable {α : Type}

def insertSorted (stays : α → α → Bool) (a : α) : List α → List α
  | [] => [a]
  | b :: bs => if stays b a then b :: insertSorted stays a bs else a :: b :: bs

def sortBy (stays : α → α → Bool) : List α → List α
  | [] => []
  | a :: t => insertSorted stays a (sortBy stays t)

theorem mem_insertSorted (stays : α → α → Bool) (a x : α) :
    ∀ l : List α, x ∈ insertSorted stays a l ↔ x = a ∨ x ∈ l := by
  intro l
  induction l with
  | nil => simp [insertSorted]
  | cons b bs ih =>
    by_cases h : stays b a = true
    · simp only [insertSorted, if_pos h, List.mem_cons, ih]
      tauto
    · simp only [insertSorted, if_neg h, List.mem_cons]

theorem mem_sortBy (stays : α → α → Bool) (x : α) :
    ∀ l : List α, x ∈ sortBy stays l ↔ x ∈ l := by
  intro l
  induction l with
  | nil => simp [sortBy]
  | cons a t ih => simp [sortBy, mem_insertSorted, ih]

theorem pairwise_insertSorted {R : α → α → Prop} {stays : α → α → Bool}
    (hbt : ∀ x y, stays x y = true → R x y)
    (hbf : ∀ x y, stays x y = false → R y x)
    (htrans : ∀ a b c, R a b → R b c → R a c) (a : α) :
    ∀ l : List α, l.Pairwise R → (insertSorted stays a l).Pairwise R := by
  intro l
  induction l with
  | nil => intro _; simp [insertSorted]
  | cons b bs ih =>
    intro hl
    rcases List.pairwise_cons.mp hl with ⟨hb, hbs⟩
    by_cases h : stays b a = true
    · rw [insertSorted, if_pos h]
      refine List.pairwise_cons.mpr ⟨?_, ih hbs⟩
      intro y hy
      rcases (mem_insertSorted stays a y bs).mp hy with rfl | hy
      · exact hbt _ _ h
      · exact hb y hy
    · rw [insertSorted, if_neg h]
      refine List.pairwise_cons.mpr ⟨?_, hl⟩
      intro y hy
      rcases List.mem_cons.mp hy with rfl | hy
      · exact hbf _ _ (by simpa using h)
      · exact htrans _ _ _ (hbf _ _ (by simpa using h)) (hb y hy)

theorem pairwise_sortBy {R : α → α → Prop} {stays : α → α → Bool}
    (hbt : ∀ x y, stays x y = true → R x y)
    (hbf : ∀ x y, stays x y = false → R y x)
    (htrans : ∀ a b c, R a b → R b c → R a c) :
    ∀ l : List α, (sortBy stays l).Pairwise R := by
  intro l
  induction l with
  | nil => simp [sortBy]
  | cons a t ih => exact pairwise_insertSorted hbt hbf htrans a _ ih

end Sorting

/-- Descending stable order by a rational key: an element `b` already in place
stays in front of the inserted `a` iff its key is strictly larger (`reverse=True`
keeps equal keys in original order). -/
def descBy {α : Type} (key : α → ℚ) : α → α → Bool :=
  fun b a => decide (key a < key b)

/-- Ascending stable order by a rational key (nearest-neighbor results come back
ordered by increasing distance). -/
def ascBy {α : Type} (key : α → ℚ) : α → α → Bool :=
  fun b a => decide (key b < key a)

theorem pairwise_sortBy_descBy {α : Type} (key : α → ℚ) (l : List α) :
    (sortBy (descBy key) l).Pairwise (fun x y => key y ≤ key x) := by
  refine pairwise_sortBy ?_ ?_ ?_ l
  · intro x y h
    exact le_of_lt (of_decide_eq_true h)
  · intro x y h
    exact not_lt.mp (of_decide_eq_false h)
  · intro a b c h1 h2
    exact le_trans h2 h1

/-! ## Similarity Store (`backend/utils/embedding_service.py`)

A ChromaDB collection is modelled as the list of its records; since the query
embedding is fixed throughout one request, each record carries the native
distance between its embedding and the query embedding.  `collection.query`
returns the `n_results` nearest records of the requested owner partition,
ordered by increasing distance. -/

structure RawHit where
  distance : ℚ
  transcriptId : ℕ
  text : String
  userId : ℕ
  deriving DecidableEq, Repr

structure Hit where
  transcriptId : ℕ
  text : String
  similarityScore : ℚ
  userId : ℕ
  rerankerScore : Option ℚ := none
  combinedScore : Option ℚ := none
  deriving DecidableEq, Repr

/-- `similarity = 1 - distance` — the conversion applied at
`embedding_service.py` line 340. -/
def toSimilarity (distance : ℚ) : ℚ := 1 - distance

def scoreRawHit (r : RawHit) : Hit :=
  { transcriptId := r.transcriptId
    text := r.text
    similarityScore := toSimilarity r.distance
    userId := r.userId }

/-- `find_similar_transcripts(query_text, user_id, limit, similarity_threshold)`
with the collection access abstracted: `query n` stands for
`transcript_collection.query(query_embeddings=…, n_results=n, where=…)`.
The source over-fetches `limit * 3` raw results, converts distances to
similarities, keeps only scores `≥ similarity_threshold`, sorts descending by
the similarity score and truncates to `limit`. -/
def findSimilarTranscripts (query : ℕ → List RawHit) (limit : ℕ) (thr : ℚ) :
    List Hit :=
  let raw := query (limit * 3)
  let kept := (raw.map scoreRawHit).filter fun h => decide (thr ≤ h.similarityScore)
  (sortBy (descBy Hit.similarityScore) kept).take limit

/-- Claim C4: every candidate returned by a similarity query scores at least the
requested threshold, the result list is sorted descending by the reported
similarity score and holds at most `limit` entries, and the threshold filter is
applied to an internal over-fetch of `3 × limit` raw nearest-neighbor results
(within the 2–3× the spec asks for). -/
theorem similarity_query_filter_sort_truncate (query : ℕ → List RawHit)
    (limit : ℕ) (thr : ℚ) :
    (∀ h ∈ findSimilarTranscripts query limit thr, thr ≤ h.similarityScore) ∧
    (findSimilarTranscripts query limit thr).Pairwise
      (fun x y => y.similarityScore ≤ x.similarityScore) ∧
    (findSimilarTranscripts query limit thr).length ≤ limit ∧
    findSimilarTranscripts query limit thr =
      (sortBy (descBy Hit.similarityScore)
        (((query (limit * 3)).map scoreRawHit).filter
          fun h => decide (thr ≤ h.similarityScore))).take limit := by
  refine ⟨?_, ?_, ?_, rfl⟩
  · intro h hmem
    have h1 := List.take_subset _ _ hmem
    have h2 := (mem_sortBy _ _ _).mp h1
    have h3 := List.of_mem_filter h2
    exact of_decide_eq_true h3
  · exact (pairwise_sortBy_descBy Hit.similarityScore _).sublist (List.take_sublist _ _)
  · exact List.length_take_le _ _

/-- `combined_score = original * 0.3 + reranker * 0.7`
(`reranker_service.py` line 75). -/
def combinedOf (originalScore rerankerScore : ℚ) : ℚ :=
  originalScore * (3/10) + rerankerScore * (7/10)

/-- Claim C5, counterexample: the similarity score the pipeline produces for a
raw nearest-neighbor result at native distance `3/2` is `-(1/2)`, which is not
in `[0,1]` — the collections are created with ChromaDB's default (unbounded) L2
metric, so distances above `1` are possible, and the code applies
`similarity = 1 - distance` without clamping. -/
theorem similarity_unit_interval_counterexample :
    0 ≤ (3/2 : ℚ) ∧
    (scoreRawHit { distance := 3/2, transcriptId := 7, text := "t", userId := 1 }).similarityScore
      = -(1/2) ∧
    ¬ (0 ≤ (scoreRawHit { distance := 3/2, transcriptId := 7, text := "t", userId := 1 }).similarityScore) := by
  refine ⟨by norm_num, by norm_num [scoreRawHit, toSimilarity], ?_⟩
  norm_num [scoreRawHit, toSimilarity]

/-- Claim C5, amended: for nonnegative native distances the converted score is
at most `1` (but may be negative when the distance exceeds `1`); every candidate
actually returned by a similarity query has its score in `[threshold, 1]`
whenever the raw distances are nonnegative; and the reranker's combined score
`0.3·original + 0.7·reranker` lies in `[0,1]` whenever both inputs do. -/
theorem similarity_bounds_amended :
    (∀ d : ℚ, 0 ≤ d → toSimilarity d ≤ 1) ∧
    (∀ (query : ℕ → List RawHit) (limit : ℕ) (thr : ℚ),
      (∀ r ∈ query (limit * 3), 0 ≤ r.distance) →
      ∀ h ∈ findSimilarTranscripts query limit thr,
        thr ≤ h.similarityScore ∧ h.similarityScore ≤ 1) ∧
    (∀ o r : ℚ, 0 ≤ o → o ≤ 1 → 0 ≤ r → r ≤ 1 →
      0 ≤ combinedOf o r ∧ combinedOf o r ≤ 1) := by
  refine ⟨?_, ?_, ?_⟩
  · intro d hd
    simp only [toSimilarity]
    linarith
  · intro query limit thr hdist h hmem
    have h1 := List.take_subset _ _ hmem
    have h2 := (mem_sortBy _ _ _).mp h1
    have hthr := List.of_mem_filter h2
    rw [decide_eq_true_eq] at hthr
    have hmem2 := List.mem_of_mem_filter h2
    rcases List.mem_map.mp hmem2 with ⟨r, hr, rfl⟩
    refine ⟨hthr, ?_⟩
    have := hdist r hr
    simp only [scoreRawHit, toSimilarity]
    linarith
  · intro o r ho1 ho2 hr1 hr2
    constructor
    · simp only [combinedOf]; nlinarith
    · simp only [combinedOf]; nlinarith

/-- A one-record index used to witness `similarity_bounds_amended`. -/
def demoQueryFn : ℕ → List RawHit :=
  fun _ => [{ distance := 1/10, transcriptId := 3, text := "t", userId := 1 }]

/-- Witness for `similarity_bounds_amended`: a one-record index at distance
`1/10` queried with threshold `1/2`, and the combined score of `1/2` and `1/2`. -/
theorem similarity_bounds_amended_witness :
    (∀ r ∈ demoQueryFn (1 * 3), 0 ≤ r.distance) ∧
    (∀ h ∈ findSimilarTranscripts demoQueryFn 1 (1/2),
        (1/2 : ℚ) ≤ h.similarityScore ∧ h.similarityScore ≤ 1) ∧
    (0 ≤ combinedOf (1/2) (1/2) ∧ combinedOf (1/2) (1/2) ≤ 1) :=
  ⟨by decide,
   similarity_bounds_amended.2.1 demoQueryFn 1 (1/2) (by decide),
   similarity_bounds_amended.2.2 (1/2) (1/2) (by norm_num) (by norm_num)
     (by norm_num) (by norm_num)⟩

/-! ## Transcript-first evaluation stage and Persistence Gate
(`backend/api/extract.py`, `extract_medical_actions`, lines 381–950)

The evaluation stage searches the shared reference partition (owner id `999`)
and — when the request carries a user id that is truthy and not `999` — the
requester's own partition, first with the reranked search at threshold `0.3`
(limit 10), then, only if the combined hit list is empty, with the plain search
at `0.1` (limit 15) and finally at `0.05` (limit 20).  Hits whose transcript
has a stored extraction become evaluation standards; the standards are sorted
descending by similarity and drive the strategy choice, the LLM evaluation
(an oracle here: `overallScore` / `llmConfidenceLevel`), the confidence tier
and the persistence decision. -/

structure EvalStandard where
  similarityScore : ℚ
  goldStandard : String
  transcriptId : ℕ
  deriving DecidableEq, Repr

structure EvalInput where
  /-- `find_similar_transcripts[_with_reranker]`: arguments are
  (use reranker?, owner id, limit, similarity threshold). -/
  search : Bool → ℕ → ℕ → ℚ → List Hit
  /-- the `ExtractionResult` row for a transcript id, rendered as a gold
  standard payload, if one exists. -/
  extractionFor : ℕ → Option String
  /-- `request.user_id` -/
  userId : Option ℕ
  /-- `overall_score` reported by the (opaque) LLM evaluation call. -/
  overallScore : ℚ
  /-- `confidence_level` reported by the (opaque) LLM evaluation call. -/
  llmConfidenceLevel : String

/-- The user-partition half of each search round: skipped when `request.user_id`
is falsy (absent or `0`) or equal to the reserved reference owner `999`. -/
def searchUserPart (inp : EvalInput) (useReranker : Bool) (limit : ℕ) (thr : ℚ) :
    List Hit :=
  match inp.userId with
  | some u => if u ≠ 0 ∧ u ≠ 999 then inp.search useReranker u limit thr else []
  | none => []

/-- First search round: reranked, threshold `0.3`, limit 10 per partition. -/
def attempt1 (inp : EvalInput) : List Hit :=
  inp.search true 999 10 (3/10) ++ searchUserPart inp true 10 (3/10)

/-- First retry: plain search, threshold `0.1`, limit 15 per partition. -/
def attempt2 (inp : EvalInput) : List Hit :=
  inp.search false 999 15 (1/10) ++ searchUserPart inp false 15 (1/10)

/-- Second retry: plain search, threshold `0.05`, limit 20 per partition. -/
def attempt3 (inp : EvalInput) : List Hit :=
  inp.search false 999 20 (1/20) ++ searchUserPart inp false 20 (1/20)

/-- The retry ladder: later rounds run only while the previous round returned
no similar transcripts at all. -/
def retrievedHits (inp : EvalInput) : List Hit :=
  if attempt1 inp = [] then
    (if attempt2 inp = [] then attempt3 inp else attempt2 inp)
  else attempt1 inp

/-- `available_standards`: hits whose transcript has a stored extraction,
sorted descending by the (pre-rerank) similarity score. -/
def availableStandards (inp : EvalInput) : List EvalStandard :=
  sortBy (descBy EvalStandard.similarityScore)
    ((retrievedHits inp).filterMap fun h =>
      (inp.extractionFor h.transcriptId).map fun g =>
        { similarityScore := h.similarityScore
          goldStandard := g
          transcriptId := h.transcriptId })

/-- Strategy selection on the sorted standards (lines 521–539): the pair is
(`strategy`, `num_standards`). -/
def strategyOf : List EvalStandard → String × ℕ
  | [] => ("none", 0)
  | best :: rest =>
    if 8/10 ≤ best.similarityScore then ("single", 1)
    else if 6/10 ≤ best.similarityScore then ("few", min 3 (best :: rest).length)
    else ("multiple", min 5 (best :: rest).length)

/-- The confidence tier the request ends the evaluation stage with. -/
def pipelineTier (inp : EvalInput) : String :=
  match availableStandards inp with
  | [] => "no_evaluation"
  | best :: _ =>
    determineConfidenceLevel inp.overallScore inp.llmConfidenceLevel
      best.similarityScore

structure GateResult where
  strategy : String
  numStandards : ℕ
  tier : String
  /-- was `crud.create_extraction_result` reached? -/
  persisted : Bool
  /-- the `review_required` field of the returned response; the high-tier
  response (`schema.ExtractionResponse`) leaves it at its `None` default,
  the other two response branches hard-code `True`. -/
  reviewRequired : Option Bool
  /-- `flagged = confidence_level in ["medium", "low", "no_evaluation"]`. -/
  flagged : Bool
  deriving DecidableEq, Repr

/-- The observable outcome of one request that completes the evaluation stage
(lines 502–950 of `extract.py`). -/
def runEvaluationGate (inp : EvalInput) : GateResult :=
  { strategy := (strategyOf (availableStandards inp)).1
    numStandards := (strategyOf (availableStandards inp)).2
    tier := pipelineTier inp
    persisted := decide (pipelineTier inp = "high")
    reviewRequired := if pipelineTier inp = "high" then none else some true
    flagged := ["medium", "low", "no_evaluation"].contains (pipelineTier inp) }

/-- A request whose evaluation resolves to tier `high`: one reference hit at
similarity `0.95` with a stored gold standard, LLM score `0.95`. -/
def demoHighInput : EvalInput :=
  { search := fun useReranker _ _ _ =>
      if useReranker then
        [{ transcriptId := 1, text := "t", similarityScore := 95/100, userId := 999 }]
      else []
    extractionFor := fun _ => some "gold"
    userId := some 1
    overallScore := 95/100
    llmConfidenceLevel := "high" }

/-- A request whose evaluation resolves to tier `low`. -/
def demoLowTierInput : EvalInput :=
  { search := fun useReranker _ _ _ =>
      if useReranker then
        [{ transcriptId := 1, text := "t", similarityScore := 2/10, userId := 999 }]
      else []
    extractionFor := fun _ => some "gold"
    userId := some 1
    overallScore := 1/10
    llmConfidenceLevel := "low" }

/-- A request for which every search round comes back empty. -/
def demoNoEvalInput : EvalInput :=
  { search := fun _ _ _ _ => []
    extractionFor := fun _ => none
    userId := some 1
    overallScore := 0
    llmConfidenceLevel := "low" }

/-- A request whose first search round returns a hit, but the hit's transcript
has no stored extraction. -/
def demoOrphanInput : EvalInput :=
  { search := fun useReranker _ _ _ =>
      if useReranker then
        [{ transcriptId := 5, text := "t", similarityScore := 9/10, userId := 999 }]
      else []
    extractionFor := fun _ => none
    userId := none
    overallScore := 0
    llmConfidenceLevel := "low" }

/-- Claim C2, counterexample: on a request that resolves to tier `high` the
response's `review_required` field is not `false` — the high-tier response
omits it, leaving the `None` default of `schema.ExtractionResponse`. -/
theorem persistence_gate_counterexample :
    (runEvaluationGate demoHighInput).tier = "high" ∧
    (runEvaluationGate demoHighInput).reviewRequired = none ∧
    (runEvaluationGate demoHighInput).reviewRequired ≠ some false := by
  decide

/-- Claim C2, amended: tier `high` persists the record, leaves
`review_required` unset (`None`, not an explicit `false`) and is not flagged;
every other tier (`medium`, `low`, `no_evaluation`) does not persist, returns
`review_required = true` and `flagged = true`; and when every search round of
the retry ladder comes back empty the request ends with tier `no_evaluation`,
strategy `none`, flagged, and no record written. -/
theorem persistence_gate_amended (inp : EvalInput) :
    ((runEvaluationGate inp).tier = "high" →
      (runEvaluationGate inp).persisted = true ∧
      (runEvaluationGate inp).reviewRequired = none ∧
      (runEvaluationGate inp).flagged = false) ∧
    ((runEvaluationGate inp).tier = "medium" ∨ (runEvaluationGate inp).tier = "low" ∨
        (runEvaluationGate inp).tier = "no_evaluation" →
      (runEvaluationGate inp).persisted = false ∧
      (runEvaluationGate inp).reviewRequired = some true ∧
      (runEvaluationGate inp).flagged = true) ∧
    (attempt1 inp = [] ∧ attempt2 inp = [] ∧ attempt3 inp = [] →
      (runEvaluationGate inp).tier = "no_evaluation" ∧
      (runEvaluationGate inp).strategy = "none" ∧
      (runEvaluationGate inp).persisted = false ∧
      (runEvaluationGate inp).flagged = true) := by
  refine ⟨?_, ?_, ?_⟩
  · intro h
    have h1 : pipelineTier inp = "high" := h
    refine ⟨?_, ?_, ?_⟩ <;> simp [runEvaluationGate, h1]
  · intro h
    have h1 : pipelineTier inp = "medium" ∨ pipelineTier inp = "low" ∨
        pipelineTier inp = "no_evaluation" := h
    rcases h1 with h1 | h1 | h1 <;>
      refine ⟨?_, ?_, ?_⟩ <;> simp [runEvaluationGate, h1]
  · rintro ⟨h1, h2, h3⟩
    have hr : retrievedHits inp = [] := by
      simp [retrievedHits, h1, h2, h3]
    have hs : availableStandards inp = [] := by
      simp [availableStandards, hr, sortBy]
    have ht : pipelineTier inp = "no_evaluation" := by
      simp [pipelineTier, hs]
    refine ⟨ht, ?_, ?_, ?_⟩ <;> simp [runEvaluationGate, hs, ht, strategyOf]

/-- Witness for `persistence_gate_amended`, exercising all three branches on
the three demo requests. -/
theorem persistence_gate_amended_witness :
    ((runEvaluationGate demoHighInput).persisted = true ∧
      (runEvaluationGate demoHighInput).reviewRequired = none ∧
      (runEvaluationGate demoHighInput).flagged = false) ∧
    ((runEvaluationGate demoLowTierInput).persisted = false ∧
      (runEvaluationGate demoLowTierInput).reviewRequired = some true ∧
      (runEvaluationGate demoLowTierInput).flagged = true) ∧
    ((runEvaluationGate demoNoEvalInput).tier = "no_evaluation" ∧
      (runEvaluationGate demoNoEvalInput).strategy = "none" ∧
      (runEvaluationGate demoNoEvalInput).persisted = false ∧
      (runEvaluationGate demoNoEvalInput).flagged = true) :=
  ⟨(persistence_gate_amended demoHighInput).1 (by decide),
   (persistence_gate_amended demoLowTierInput).2.1 (by decide),
   (persistence_gate_amended demoNoEvalInput).2.2 ⟨by decide, by decide, by decide⟩⟩

/-- Claim C3, counterexample: the retry ladder is keyed on similar-transcript
hits, not on derivable standards — a request whose first search round returns a
hit without a stored extraction proceeds directly to strategy `none` with `0`
standards even though no retry round came back empty. -/
theorem strategy_retry_counterexample :
    (runEvaluationGate demoOrphanInput).strategy = "none" ∧
    (runEvaluationGate demoOrphanInput).numStandards = 0 ∧
    attempt1 demoOrphanInput ≠ [] := by
  decide

/-- Claim C3, amended: the strategy table is as claimed (`≥ 0.8` → `single`/1,
`[0.6, 0.8)` → `few`/`min 3 available`, `< 0.6` → `multiple`/`min 5 available`);
searches are attempted at thresholds `0.3`, then `0.1`, then `0.05`, each retry
running only when the previous round returned no hits; and the pipeline
proceeds with strategy `none` and `0` standards exactly when no retrieved hit
has a stored extraction — which includes, but is not limited to, the case where
every round returned no hits. -/
theorem strategy_selector_amended :
    (∀ (best : EvalStandard) (rest : List EvalStandard),
      (8/10 ≤ best.similarityScore → strategyOf (best :: rest) = ("single", 1)) ∧
      (6/10 ≤ best.similarityScore → best.similarityScore < 8/10 →
        strategyOf (best :: rest) = ("few", min 3 (rest.length + 1))) ∧
      (best.similarityScore < 6/10 →
        strategyOf (best :: rest) = ("multiple", min 5 (rest.length + 1)))) ∧
    (∀ inp : EvalInput,
      (attempt1 inp ≠ [] → retrievedHits inp = attempt1 inp) ∧
      (attempt1 inp = [] → attempt2 inp ≠ [] → retrievedHits inp = attempt2 inp) ∧
      (attempt1 inp = [] → attempt2 inp = [] → retrievedHits inp = attempt3 inp) ∧
      (availableStandards inp = [] ↔
        (runEvaluationGate inp).strategy = "none" ∧
        (runEvaluationGate inp).numStandards = 0)) := by
  constructor
  · intro best rest
    refine ⟨?_, ?_, ?_⟩
    · intro h
      simp [strategyOf, if_pos h]
    · intro h1 h2
      simp [strategyOf, if_neg (not_le.mpr h2), if_pos h1]
    · intro h
      have hn8 : ¬ (8/10 ≤ best.similarityScore) :=
        not_le.mpr (h.trans_le (by norm_num))
      have hn6 : ¬ (6/10 ≤ best.similarityScore) := not_le.mpr h
      simp [strategyOf, if_neg hn8, if_neg hn6]
  · intro inp
    refine ⟨?_, ?_, ?_, ?_⟩
    · intro h
      simp [retrievedHits, if_neg h]
    · intro h1 h2
      simp [retrievedHits, h1, if_neg h2]
    · intro h1 h2
      simp [retrievedHits, h1, h2]
    · constructor
      · intro h
        constructor <;> simp [runEvaluationGate, h, strategyOf]
      · rintro ⟨hs, hn⟩
        cases hmatch : availableStandards inp with
        | nil => rfl
        | cons b t =>
          exfalso
          have hn2 : (strategyOf (b :: t)).2 = 0 := by
            have : (strategyOf (availableStandards inp)).2 = 0 := hn
            rwa [hmatch] at this
          rcases le_or_lt (8/10) b.similarityScore with h8 | h8
          · rw [strategyOf, if_pos h8] at hn2
            exact one_ne_zero hn2
          · rcases le_or_lt (6/10) b.similarityScore with h6 | h6
            · rw [strategyOf, if_neg (not_le.mpr h8), if_pos h6] at hn2
              simp at hn2
            · rw [strategyOf, if_neg (not_le.mpr h8), if_neg (not_le.mpr h6)] at hn2
              simp at hn2

/-- A request whose first round is empty but whose `0.1` retry returns a hit. -/
def demoRetryInput : EvalInput :=
  { search := fun _ _ _ thr =>
      if thr ≤ 1/10 then
        [{ transcriptId := 2, text := "t", similarityScore := 12/100, userId := 999 }]
      else []
    extractionFor := fun _ => some "gold"
    userId := none
    overallScore := 1/2
    llmConfidenceLevel := "low" }

/-- Witness for `strategy_selector_amended`: the three strategy rows at
similarities `0.85`, `0.65` (3 available) and `0.2` (7 available, 5 used), and
the retry ladder on the demo requests. -/
theorem strategy_selector_amended_witness :
    (strategyOf [⟨85/100, "g", 1⟩] = ("single", 1) ∧
      strategyOf [⟨65/100, "g", 1⟩, ⟨64/100, "g", 2⟩, ⟨1/2, "g", 3⟩] = ("few", 3) ∧
      strategyOf [⟨2/10, "g", 1⟩, ⟨2/10, "g", 2⟩, ⟨2/10, "g", 3⟩, ⟨2/10, "g", 4⟩,
        ⟨2/10, "g", 5⟩, ⟨2/10, "g", 6⟩, ⟨2/10, "g", 7⟩] = ("multiple", 5)) ∧
    (retrievedHits demoOrphanInput = attempt1 demoOrphanInput ∧
      retrievedHits demoRetryInput = attempt2 demoRetryInput ∧
      retrievedHits demoNoEvalInput = attempt3 demoNoEvalInput) :=
  ⟨⟨(strategy_selector_amended.1 _ _).1 (by norm_num),
    (strategy_selector_amended.1 _ _).2.1 (by norm_num) (by norm_num),
    (strategy_selector_amended.1 _ _).2.2 (by norm_num)⟩,
   (strategy_selector_amended.2 demoOrphanInput).1 (by decide),
   (strategy_selector_amended.2 demoRetryInput).2.1 (by decide) (by decide),
   (strategy_selector_amended.2 demoNoEvalInput).2.2.1 (by decide) (by decide)⟩

/-! ## Context Selector (`backend/utils/smart_context_selector.py`)

Multi-factor scoring (`assess_medical_relevance`, `assess_extraction_quality`,
`assess_context_completeness`, `calculate_combined_relevance`) and the greedy
token-budgeted selection (`select_optimal_context`).  Python's `min(x, 1.0)` is
modelled by `ratMin`; substring tests (`kw in text`) by `strContains`;
`re.findall(r'\b(w1|…|wn)\b', text)` by `findTerms`. -/

def ratMin (a b : ℚ) : ℚ := if a ≤ b then a else b

def lowerChar (c : Char) : Char :=
  if 'A' ≤ c ∧ c ≤ 'Z' then Char.ofNat (c.toNat + 32) else c

def lowerStr (s : String) : String := ⟨s.data.map lowerChar⟩

def beginsWith : List Char → List Char → Bool
  | [], _ => true
  | _ :: _, [] => false
  | a :: as, b :: bs => a == b && beginsWith as bs

def hasSubstr (needle : List Char) : List Char → Bool
  | [] => needle.isEmpty
  | c :: t => beginsWith needle (c :: t) || hasSubstr needle t

/-- Python's `needle in hay` on strings. -/
def strContains (hay needle : String) : Bool := hasSubstr needle.data hay.data

/-- a regex word character (`\w`), ASCII range. -/
def isWordChar (c : Char) : Bool :=
  (decide ('a' ≤ c) && decide (c ≤ 'z')) || (decide ('A' ≤ c) && decide (c ≤ 'Z')) ||
    (decide ('0' ≤ c) && decide (c ≤ '9')) || (c == '_')

/-- does the literal word `w` match at the head of `l` with a right word
boundary after it? -/
def matchAt (w : List Char) (l : List Char) : Bool :=
  beginsWith w l &&
    (match l.drop w.length with
     | [] => true
     | d :: _ => !isWordChar d)

def firstTerm (terms : List (List Char)) (l : List Char) : Option (List Char) :=
  terms.find? fun w => matchAt w l

/-- Left-to-right scan for word-boundary matches of an alternation of literal
words, continuing after each match (`re.findall` on `\b(w1|w2|…)\b`); `prev` is
the character before the current position, for the left boundary.  A match of
`w` consumes `w.length ≥ 1` characters, so one unit of fuel per input character
is always enough; the fuel only makes the recursion structural. -/
def findTermsAux (terms : List (List Char)) : ℕ → Option Char → List Char → List (List Char)
  | 0, _, _ => []
  | _ + 1, _, [] => []
  | fuel + 1, prev, c :: t =>
    let lb : Bool :=
      match prev with
      | none => true
      | some p => !isWordChar p
    if lb then
      match firstTerm terms (c :: t) with
      | some w => w :: findTermsAux terms fuel (some (w.getLastD 'a')) (t.drop (w.length - 1))
      | none => findTermsAux terms fuel (some c) t
    else findTermsAux terms fuel (some c) t

def findTerms (terms : List String) (s : String) : List (List Char) :=
  findTermsAux (terms.map String.data) s.data.length none s.data

def setInterCount (d1 d2 : List (List Char)) : ℕ :=
  (d1.filter fun x => d2.contains x).length

def setUnionCount (d1 d2 : List (List Char)) : ℕ :=
  d1.length + (d2.filter fun x => !d1.contains x).length

/-- `self.medical_keywords` of `SmartContextSelector.__init__`. -/
def medicalKeywords : List (String × List String) :=
  [("medication", ["prescribe", "medication", "drug", "dosage", "frequency", "duration"]),
   ("follow_up", ["schedule", "follow-up", "appointment", "return", "monitor"]),
   ("tests", ["blood work", "lab test", "x-ray", "mri", "ct scan", "ultrasound"]),
   ("symptoms", ["pain", "symptom", "condition", "diagnosis", "treatment"]),
   ("vitals", ["blood pressure", "heart rate", "temperature", "weight", "height"])]

/-- the alternation of `assess_medical_relevance`'s term regex. -/
def relevanceTerms : List String :=
  ["medication", "prescribe", "dosage", "schedule", "test", "appointment", "monitor",
   "symptom", "diagnosis"]

/-- the alternation of `assess_context_completeness`'s term regex. -/
def completenessTerms : List String :=
  ["medication", "prescribe", "dosage", "schedule", "test", "appointment", "monitor",
   "symptom", "diagnosis", "treatment"]

def actionWords : List String := ["schedule", "order", "prescribe", "monitor", "test", "refer"]

def assessMedicalRelevance (queryText contextText : String) : ℚ :=
  let ql := lowerStr queryText
  let cl := lowerStr contextText
  let catScore : ℚ :=
    (medicalKeywords.map fun kw =>
      (((kw.2.filter fun k => strContains ql k && strContains cl k).length : ℚ) /
          (kw.2.length : ℚ)) * (2/10)).sum
  let qset := (findTerms relevanceTerms ql).eraseDups
  let cset := (findTerms relevanceTerms cl).eraseDups
  let jac : ℚ :=
    if qset ≠ [] ∧ cset ≠ [] then
      ((setInterCount qset cset : ℚ) / (setUnionCount qset cset : ℚ)) * (3/10)
    else 0
  ratMin (catScore + jac) 1

/-- One extraction item; Python uses loosely-shaped dicts, so every key the
selector reads is optional here. -/
structure ExtractionItem where
  description : Option String := none
  priority : Option String := none
  dueDate : Option String := none
  medicationName : Option String := none
  dosage : Option String := none
  frequency : Option String := none
  reminderType : Option String := none
  taskType : Option String := none
  deriving DecidableEq, Repr

structure ExtractionData where
  followUpTasks : List ExtractionItem := []
  medicationInstructions : List ExtractionItem := []
  clientReminders : List ExtractionItem := []
  clinicianTodos : List ExtractionItem := []
  deriving DecidableEq, Repr

/-- Python truthiness of an optional string field. -/
def truthy : Option String → Bool
  | some s => !(s == "")
  | none => false

def itemScore (it : ExtractionItem) : ℚ :=
  (if 10 < (it.description.getD "").length ∧
      (actionWords.any fun w => strContains (lowerStr (it.description.getD "")) w) = true
   then 1 else 0)
  + (if truthy it.priority = true then 1/2 else 0)
  + (if truthy it.dueDate = true then 1/2 else 0)

def categoryQuality (items : List ExtractionItem) : ℚ :=
  if items = [] then 0
  else ((items.map itemScore).sum / (items.length : ℚ)) * (25/100)

def assessExtractionQuality : Option ExtractionData → ℚ
  | none => 0
  | some d =>
    ratMin (categoryQuality d.followUpTasks + categoryQuality d.medicationInstructions +
      categoryQuality d.clientReminders + categoryQuality d.clinicianTodos) 1

def assessContextCompleteness (text : String) : ℚ :=
  if text = "" then 0
  else
    let n := text.length
    let lenScore : ℚ := if 100 ≤ n ∧ n ≤ 2000 then 3/10 else if 2000 < n then 2/10 else 0
    let terms := findTerms completenessTerms (lowerStr text)
    let termScore : ℚ :=
      if terms ≠ [] then ratMin ((terms.length : ℚ) * (1/10)) (4/10) else 0
    let structScore : ℚ :=
      if ([':', '-', '•', '*'].any fun ch => text.data.contains ch) = true then 2/10 else 0
    let actionScore : ℚ :=
      if (actionWords.any fun w => strContains (lowerStr text) w) = true then 1/10 else 0
    ratMin (lenScore + termScore + structScore + actionScore) 1

/-- `ContextCandidate` of `smart_context_selector.py` (the unused `metadata`
payload is omitted: neither the selector nor the context builder reads it). -/
structure ContextCandidate where
  transcriptId : ℕ
  text : String
  similarityScore : ℚ
  userId : ℕ
  extractionData : Option ExtractionData := none
  deriving DecidableEq, Repr

/-- `ScoredContext` (the free-text `reasoning` field, a log string never read
back, is omitted). -/
structure ScoredContext where
  candidate : ContextCandidate
  relevanceScore : ℚ
  medicalRelevance : ℚ
  extractionQuality : ℚ
  contextCompleteness : ℚ
  estimatedTokens : ℕ
  deriving DecidableEq, Repr

/-- `estimate_tokens`: `len(text) // 4`. -/
def estimateTokens (text : String) : ℕ := text.length / 4

def calculateCombinedRelevance (queryText : String) (c : ContextCandidate) : ScoredContext :=
  let m := assessMedicalRelevance queryText c.text
  let q := assessExtractionQuality c.extractionData
  let comp := assessContextCompleteness c.text
  { candidate := c
    relevanceScore := c.similarityScore * (4/10) + m * (3/10) + q * (2/10) + comp * (1/10)
    medicalRelevance := m
    extractionQuality := q
    contextCompleteness := comp
    estimatedTokens := estimateTokens c.text }

/-- The greedy selection loop of `select_optimal_context` (lines 196–219),
iterating over the scored candidates in sorted order with the running token
total and the count of already-accepted candidates. -/
def selectGo (maxTokens : ℕ) (minRel : ℚ) :
    List ScoredContext → ℕ → ℕ → List ContextCandidate
  | [], _, _ => []
  | s :: rest, totalTokens, count =>
    if s.relevanceScore < minRel then []
    else if maxTokens < totalTokens + s.estimatedTokens then []
    else if 3 ≤ count ∧ s.relevanceScore < 8/10 then
      (if s.relevanceScore < 9/10 then []
       else s.candidate ::
         (if 5 ≤ count + 1 then []
          else selectGo maxTokens minRel rest (totalTokens + s.estimatedTokens) (count + 1)))
    else s.candidate ::
      (if 5 ≤ count + 1 then []
       else selectGo maxTokens minRel rest (totalTokens + s.estimatedTokens) (count + 1))

/-- `select_optimal_context`; the global instance has `max_tokens = 2000` and
`min_relevance_threshold = 0.6`. -/
def selectOptimalContext (maxTokens : ℕ) (minRel : ℚ) (queryText : String)
    (cands : List ContextCandidate) : List ContextCandidate :=
  if cands = [] then []
  else
    selectGo maxTokens minRel
      (sortBy (descBy ScoredContext.relevanceScore)
        (cands.map (calculateCombinedRelevance queryText))) 0 0

/-- the cumulative estimated token count of a selection. -/
def tokenSum (cs : List ContextCandidate) : ℕ :=
  (cs.map fun c => estimateTokens c.text).sum

theorem selectGo_length_le (maxTokens : ℕ) (minRel : ℚ) :
    ∀ (l : List ScoredContext) (tok cnt : ℕ), cnt ≤ 4 →
      (selectGo maxTokens minRel l tok cnt).length ≤ 5 - cnt := by
  intro l
  induction l with
  | nil => intro tok cnt _; simp [selectGo]
  | cons s rest ih =>
    intro tok cnt hcnt
    simp only [selectGo]
    by_cases h1 : s.relevanceScore < minRel
    · rw [if_pos h1]; simp
    · rw [if_neg h1]
      by_cases h2 : maxTokens < tok + s.estimatedTokens
      · rw [if_pos h2]; simp
      · rw [if_neg h2]
        have hcont :
            (s.candidate ::
              (if 5 ≤ cnt + 1 then []
               else selectGo maxTokens minRel rest (tok + s.estimatedTokens) (cnt + 1))).length
              ≤ 5 - cnt := by
          by_cases h5 : 5 ≤ cnt + 1
          · rw [if_pos h5]
            simp only [List.length_cons, List.length_nil]
            omega
          · rw [if_neg h5]
            have hrec := ih (tok + s.estimatedTokens) (cnt + 1) (by omega)
            simp only [List.length_cons]
            omega
        by_cases h3 : 3 ≤ cnt ∧ s.relevanceScore < 8/10
        · rw [if_pos h3]
          by_cases h4 : s.relevanceScore < 9/10
          · rw [if_pos h4]; simp
          · rw [if_neg h4]; exact hcont
        · rw [if_neg h3]; exact hcont

theorem selectGo_tokens (maxTokens : ℕ) (minRel : ℚ) :
    ∀ (l : List ScoredContext) (tok cnt : ℕ),
      (∀ s ∈ l, s.estimatedTokens = estimateTokens s.candidate.text) →
      tok ≤ maxTokens →
      tok + tokenSum (selectGo maxTokens minRel l tok cnt) ≤ maxTokens := by
  intro l
  induction l with
  | nil =>
    intro tok cnt _ htok
    simpa [selectGo, tokenSum] using htok
  | cons s rest ih =>
    intro tok cnt hl htok
    have hs := hl s (List.mem_cons_self s rest)
    have hrest : ∀ x ∈ rest, x.estimatedTokens = estimateTokens x.candidate.text :=
      fun x hx => hl x (List.mem_cons_of_mem s hx)
    simp only [selectGo]
    by_cases h1 : s.relevanceScore < minRel
    · rw [if_pos h1]; simpa [tokenSum] using htok
    · rw [if_neg h1]
      by_cases h2 : maxTokens < tok + s.estimatedTokens
      · rw [if_pos h2]; simpa [tokenSum] using htok
      · rw [if_neg h2]
        have hle : tok + s.estimatedTokens ≤ maxTokens := not_lt.mp h2
        have hcont :
            tok + tokenSum (s.candidate ::
              (if 5 ≤ cnt + 1 then []
               else selectGo maxTokens minRel rest (tok + s.estimatedTokens) (cnt + 1)))
              ≤ maxTokens := by
          by_cases h5 : 5 ≤ cnt + 1
          · rw [if_pos h5]
            simp only [tokenSum, List.map_cons, List.map_nil, List.sum_cons, List.sum_nil]
            omega
          · rw [if_neg h5]
            have hrec := ih (tok + s.estimatedTokens) (cnt + 1) hrest hle
            simp only [tokenSum, List.map_cons, List.sum_cons] at hrec ⊢
            omega
        by_cases h3 : 3 ≤ cnt ∧ s.relevanceScore < 8/10
        · rw [if_pos h3]
          by_cases h4 : s.relevanceScore < 9/10
          · rw [if_pos h4]; simpa [tokenSum] using htok
          · rw [if_neg h4]; exact hcont
        · rw [if_neg h3]; exact hcont

theorem selectGo_relevance (maxTokens : ℕ) (minRel : ℚ) (queryText : String) :
    ∀ (l : List ScoredContext) (tok cnt i : ℕ) (c : ContextCandidate),
      (∀ s ∈ l,
        s.relevanceScore = (calculateCombinedRelevance queryText s.candidate).relevanceScore) →
      (selectGo maxTokens minRel l tok cnt).get? i = some c →
      minRel ≤ (calculateCombinedRelevance queryText c).relevanceScore ∧
      (3 ≤ cnt + i → 8/10 ≤ (calculateCombinedRelevance queryText c).relevanceScore) := by
  intro l
  induction l with
  | nil =>
    intro tok cnt i c _ hget
    simp [selectGo] at hget
  | cons s rest ih =>
    intro tok cnt i c hl hget
    have hs := hl s (List.mem_cons_self s rest)
    have hrest : ∀ x ∈ rest,
        x.relevanceScore = (calculateCombinedRelevance queryText x.candidate).relevanceScore :=
      fun x hx => hl x (List.mem_cons_of_mem s hx)
    simp only [selectGo] at hget
    by_cases h1 : s.relevanceScore < minRel
    · rw [if_pos h1] at hget; simp at hget
    · rw [if_neg h1] at hget
      by_cases h2 : maxTokens < tok + s.estimatedTokens
      · rw [if_pos h2] at hget; simp at hget
      · rw [if_neg h2] at hget
        have hstep : (3 ≤ cnt → 8/10 ≤ s.relevanceScore) →
            (s.candidate ::
              (if 5 ≤ cnt + 1 then []
               else selectGo maxTokens minRel rest (tok + s.estimatedTokens) (cnt + 1))).get? i
              = some c →
            minRel ≤ (calculateCombinedRelevance queryText c).relevanceScore ∧
            (3 ≤ cnt + i → 8/10 ≤ (calculateCombinedRelevance queryText c).relevanceScore) := by
          intro hkey hget2
          cases i with
          | zero =>
            rw [List.get?_cons_zero, Option.some_inj] at hget2
            constructor
            · have hr := not_lt.mp h1
              rw [hs, hget2] at hr
              exact hr
            · intro h3c
              have h8 := hkey (by omega)
              rw [hs, hget2] at h8
              exact h8
          | succ j =>
            rw [List.get?_cons_succ] at hget2
            by_cases h5 : 5 ≤ cnt + 1
            · rw [if_pos h5] at hget2; simp at hget2
            · rw [if_neg h5] at hget2
              have hrec := ih (tok + s.estimatedTokens) (cnt + 1) j c hrest hget2
              exact ⟨hrec.1, fun h3c => hrec.2 (by omega)⟩
        by_cases h3 : 3 ≤ cnt ∧ s.relevanceScore < 8/10
        · rw [if_pos h3] at hget
          by_cases h4 : s.relevanceScore < 9/10
          · rw [if_pos h4] at hget; simp at hget
          · rw [if_neg h4] at hget
            exact hstep (fun _ => le_trans (by norm_num) (not_lt.mp h4)) hget
        · rw [if_neg h3] at hget
          exact hstep (fun hc => not_lt.mp fun hlt => h3 ⟨hc, hlt⟩) hget

/-- Claim C6: for every query text and candidate list, the Context Selector
returns at most 5 candidates, and the sum of the selected candidates'
estimated token counts (text length divided by 4) never exceeds the configured
token budget (2000 on the global instance). -/
theorem context_selector_budget (maxTokens : ℕ) (minRel : ℚ) (queryText : String)
    (cands : List ContextCandidate) :
    (selectOptimalContext maxTokens minRel queryText cands).length ≤ 5 ∧
    tokenSum (selectOptimalContext maxTokens minRel queryText cands) ≤ maxTokens := by
  constructor
  · by_cases hc : cands = []
    · simp [selectOptimalContext, hc]
    · rw [selectOptimalContext, if_neg hc]
      have := selectGo_length_le maxTokens minRel
        (sortBy (descBy ScoredContext.relevanceScore)
          (cands.map (calculateCombinedRelevance queryText))) 0 0 (by omega)
      omega
  · by_cases hc : cands = []
    · simp [selectOptimalContext, hc, tokenSum]
    · rw [selectOptimalContext, if_neg hc]
      have hl : ∀ s ∈ sortBy (descBy ScoredContext.relevanceScore)
          (cands.map (calculateCombinedRelevance queryText)),
          s.estimatedTokens = estimateTokens s.candidate.text := by
        intro s hmem
        rcases List.mem_map.mp ((mem_sortBy _ _ _).mp hmem) with ⟨c, _, rfl⟩
        rfl
      have := selectGo_tokens maxTokens minRel
        (sortBy (descBy ScoredContext.relevanceScore)
          (cands.map (calculateCombinedRelevance queryText))) 0 0 hl (Nat.zero_le _)
      omega

/-- The query/candidate pair driving the C7 counterexample: four identical
realistic candidates whose combined relevance is exactly `0.81`. -/
def demoSelText : String := "prescribe medication drug dosage frequency duration :"

def demoSelExtraction : ExtractionData :=
  { followUpTasks :=
      [{ description := some "schedule blood work now", priority := some "high",
         dueDate := some "2025-01-01" }]
    medicationInstructions :=
      [{ description := some "order a lab test today", priority := some "high",
         dueDate := some "soon" }] }

def demoSelCandidate : ContextCandidate :=
  { transcriptId := 11, text := demoSelText, similarityScore := 1, userId := 7,
    extractionData := some demoSelExtraction }

def demoSelCands : List ContextCandidate :=
  [demoSelCandidate, demoSelCandidate, demoSelCandidate, demoSelCandidate]

/-- Claim C7, counterexample: with four identical candidates of combined
relevance `0.81`, the selector accepts a fourth candidate even though
`0.81 < 0.9` — after 3 accepted candidates the code only rejects relevance
below `0.8` (its nested `< 0.9` test is unreachable), not below `0.9` as
claimed. -/
theorem context_selector_cutoff_counterexample :
    (selectOptimalContext 2000 (6/10) demoSelText demoSelCands).get? 3 = some demoSelCandidate ∧
    (calculateCombinedRelevance demoSelText demoSelCandidate).relevanceScore = 81/100 ∧
    ¬ (9/10 ≤ (calculateCombinedRelevance demoSelText demoSelCandidate).relevanceScore) := by
  refine ⟨by decide, by decide, by decide⟩

/-- Claim C7, amended: once 3 candidates have been accepted, a further
candidate is accepted only if its combined relevance score is at least `0.8`
(not `0.9`); every accepted candidate meets the ordinary minimum-relevance
threshold. -/
theorem context_selector_cutoff_amended (maxTokens : ℕ) (minRel : ℚ) (queryText : String)
    (cands : List ContextCandidate) :
    (∀ (i : ℕ) (c : ContextCandidate), 3 ≤ i →
      (selectOptimalContext maxTokens minRel queryText cands).get? i = some c →
      8/10 ≤ (calculateCombinedRelevance queryText c).relevanceScore) ∧
    (∀ c ∈ selectOptimalContext maxTokens minRel queryText cands,
      minRel ≤ (calculateCombinedRelevance queryText c).relevanceScore) := by
  have hl : ∀ s ∈ sortBy (descBy ScoredContext.relevanceScore)
      (cands.map (calculateCombinedRelevance queryText)),
      s.relevanceScore = (calculateCombinedRelevance queryText s.candidate).relevanceScore := by
    intro s hmem
    rcases List.mem_map.mp ((mem_sortBy _ _ _).mp hmem) with ⟨c, _, rfl⟩
    rfl
  constructor
  · intro i c h3 hget
    by_cases hc : cands = []
    · rw [selectOptimalContext, if_pos hc] at hget
      simp at hget
    · rw [selectOptimalContext, if_neg hc] at hget
      exact (selectGo_relevance maxTokens minRel queryText _ 0 0 i c hl hget).2 (by omega)
  · intro c hmem
    by_cases hc : cands = []
    · rw [selectOptimalContext, if_pos hc] at hmem
      simp at hmem
    · rw [selectOptimalContext, if_neg hc] at hmem
      rcases List.mem_iff_get?.mp hmem with ⟨i, hget⟩
      exact (selectGo_relevance maxTokens minRel queryText _ 0 0 i c hl hget).1

/-- Witness for `context_selector_cutoff_amended` at the demo selection, whose
fourth accepted candidate has relevance `0.81 ≥ 0.8`. -/
theorem context_selector_cutoff_amended_witness :
    (3 ≤ 3) ∧
    (selectOptimalContext 2000 (6/10) demoSelText demoSelCands).get? 3 = some demoSelCandidate ∧
    8/10 ≤ (calculateCombinedRelevance demoSelText demoSelCandidate).relevanceScore :=
  ⟨le_refl 3, by decide,
   (context_selector_cutoff_amended 2000 (6/10) demoSelText demoSelCands).1 3 demoSelCandidate
     (le_refl 3) (by decide)⟩

/-! ## Embedding Cache (`backend/utils/embedding_cache.py`)

The cache dict is modelled as an insertion-ordered association list, timestamps
(`datetime.utcnow()`) as a `now : ℕ` parameter, vectors as `List ℚ`, and the
stdlib hash functions (`hashlib.md5` / `hashlib.sha256`, external to the
repository) as a `HashImpl` parameter.  The only properties of the real
functions the theorems below rely on are their digest shapes: an MD5 hex digest
has 32 characters and a SHA-256 hex digest has 64, so the two can never
collide, and every digest character is a single hex character. -/

/-- whitespace as Python's `str.strip` / `str.split` and regex `\s` see it
(ASCII range). -/
def isSpaceChar (c : Char) : Bool :=
  c == ' ' || c == '\t' || c == '\n' || c == '\r' || c == '\x0b' || c == '\x0c'

def dropEndWhile (p : Char → Bool) (l : List Char) : List Char :=
  (l.reverse.dropWhile p).reverse

/-- Python `str.strip()`. -/
def stripChars (l : List Char) : List Char :=
  dropEndWhile isSpaceChar (l.dropWhile isSpaceChar)

/-- Python `str.split()` with no argument: split on whitespace runs, dropping
empty tokens; `cur` accumulates the current token in reverse. -/
def splitWsGo : List Char → List Char → List (List Char)
  | [], cur => if cur.isEmpty then [] else [cur.reverse]
  | c :: t, cur =>
    if isSpaceChar c then
      (if cur.isEmpty then splitWsGo t [] else cur.reverse :: splitWsGo t [])
    else splitWsGo t (c :: cur)

def splitWs (l : List Char) : List (List Char) := splitWsGo l []

/-- `' '.join(text.strip().lower().split())` — the lenient normalization used
by `_get_similarity_hash` and by `get_similar`'s in-loop comparison. -/
def lenientNormalize (s : String) : String :=
  ⟨List.intercalate [' '] (splitWs (stripChars s.data |>.map lowerChar))⟩

structure HashImpl where
  md5Hex : String → String
  sha256Hex : String → String

structure CachedEmbedding where
  embedding : List ℚ
  textHash : String
  createdAt : ℕ
  accessCount : ℕ
  lastAccessed : ℕ
  deriving DecidableEq, Repr

/-- the cache dict, in insertion order. -/
abbrev Cache : Type := List (String × CachedEmbedding)

/-- Python `str.strip()` on `String`. -/
def pyStripStr (s : String) : String := ⟨stripChars s.data⟩

/-- `_get_text_hash`: `md5(text.strip().lower())`. -/
def textHashOf (impl : HashImpl) (s : String) : String :=
  impl.md5Hex (lowerStr (pyStripStr s))

/-- `_get_similarity_hash`: `sha256(' '.join(text.strip().lower().split()))`. -/
def similarityHashOf (impl : HashImpl) (s : String) : String :=
  impl.sha256Hex (lenientNormalize s)

def cacheFind (cache : Cache) (k : String) : Option CachedEmbedding :=
  (cache.find? fun e => e.1 == k).map Prod.snd

def cacheBump (now : ℕ) (k : String) (cache : Cache) : Cache :=
  cache.map fun e =>
    if e.1 == k then
      (e.1, { e.2 with accessCount := e.2.accessCount + 1, lastAccessed := now })
    else e

/-- `_cleanup_cache`: when over capacity, drop the `len - int(0.8·max)` entries
with the oldest `last_accessed` (dict order of the survivors is preserved). -/
def cleanupCache (maxSize : ℕ) (cache : Cache) : Cache :=
  if cache.length ≤ maxSize then cache
  else
    let removeCount := cache.length - maxSize * 8 / 10
    let victims :=
      ((sortBy (ascBy fun e => ((e.2.lastAccessed : ℚ))) cache).take
        removeCount).map Prod.fst
    cache.filter fun e => !(victims.contains e.1)

/-- `EmbeddingCache.put` (the periodic `_save_cache` disk write is I/O and has
no effect on the dict). -/
def cachePut (impl : HashImpl) (maxSize now : ℕ) (cache : Cache) (text : String)
    (emb : List ℚ) : Cache :=
  let k := textHashOf impl text
  match cacheFind cache k with
  | some _ => cacheBump now k cache
  | none =>
    cleanupCache maxSize
      (cache ++
        [(k, { embedding := emb, textHash := k, createdAt := now, accessCount := 1,
               lastAccessed := now })])

/-- `EmbeddingCache.get`: exact match on the MD5 text hash. -/
def cacheGet (impl : HashImpl) (cache : Cache) (text : String) : Option (List ℚ) :=
  (cacheFind cache (textHashOf impl text)).map fun e => e.embedding

/-- `_text_similarity`: Jaccard overlap of whitespace-split token sets. -/
def textSimilarity (t1 t2 : String) : ℚ :=
  let w1 := (splitWs t1.data).eraseDups
  let w2 := (splitWs t2.data).eraseDups
  if w1.isEmpty || w2.isEmpty then 0
  else (setInterCount w1 w2 : ℚ) / (setUnionCount w1 w2 : ℚ)

/-- `' '.join(hash_prefix)` — joining the characters of a string with spaces. -/
def spaceJoinChars (l : List Char) : String :=
  ⟨List.intercalate [' '] (l.map fun c => [c])⟩

/-- `EmbeddingCache.get_similar` (its metadata bumps do not affect the returned
value): an exact lookup under the SHA-256 similarity hash, then a first-match
scan comparing the query's tokens against the space-joined first 20 characters
of each entry's stored MD5 digest. -/
def cacheGetSimilar (impl : HashImpl) (cache : Cache) (text : String)
    (thr : ℚ) : Option (List ℚ × ℚ) :=
  let k := similarityHashOf impl text
  match cacheFind cache k with
  | some e => some (e.embedding, 1)
  | none =>
    let normText := lenientNormalize text
    match cache.find? fun e =>
        decide (thr < textSimilarity normText (spaceJoinChars (e.2.textHash.data.take 20))) with
    | some e => some (e.2.embedding, thr)
    | none => none

/-- Stand-in hash functions sharing the real digest shapes: a 32-hex-character
"MD5" and a 64-hex-character "SHA-256".  `get_similar`'s behaviour on the input
below depends only on those shapes, not the digest values. -/
def demoHashImpl : HashImpl :=
  { md5Hex := fun _ => "aaaaaaaaaaaaaaaaaaaaaaaaaaaaaaaa"
    sha256Hex := fun _ =>
      "bbbbbbbbbbbbbbbbbbbbbbbbbbbbbbbbbbbbbbbbbbbbbbbbbbbbbbbbbbbbbbbb" }

def demoCache : Cache := cachePut demoHashImpl 1000 0 ([] : Cache) "hello world" [1]

/-- Claim C8 (code bug): after `put("hello world", v)` the entry is retrievable
through `get` (the MD5 key), yet `get_similar("hello world")` — an exact match
of the stored text — returns `None`: its exact branch looks up a SHA-256 key in
a dict keyed by MD5 digests (which have a different length, so the lookup can
never hit), and its near-duplicate loop Jaccard-compares the query against the
space-joined 20-character prefix of the stored digest, whose single-character
tokens never meet the `0.95` threshold against real words. -/
theorem cache_get_similar_exact_match_bug :
    cacheGet demoHashImpl demoCache "hello world" = some [1] ∧
    cacheGetSimilar demoHashImpl demoCache "hello world" (19/20) = none := by
  refine ⟨by decide, by decide⟩


/-! ## Text Normalizer (`backend/utils/embedding_service.py`, `_normalize_text`)

The function, line by line: early return for falsy (empty) input; `strip()`;
`re.sub(r'\s+', ' ')`; `re.sub(r'\n+', ' ')`; `re.sub(r'\r+', ' ')`;
`re.sub(r'\s+([.,;:!?])', r'\1')`; four `str.replace` calls whose source
literally replaces the straight double quote and the straight apostrophe by
themselves (no-ops in the shipped code); `re.sub(r'\s+', ' ')` again; a final
`strip()`. -/

/-- replace each maximal run of characters satisfying `p` by the single
character `rep` (`re.sub(p+, rep)`); `inRun` records whether the previous
character was part of a run. -/
def collapseRuns (p : Char → Bool) (rep : Char) : Bool → List Char → List Char
  | _, [] => []
  | inRun, c :: t =>
    if p c then
      (if inRun then collapseRuns p rep true t
       else rep :: collapseRuns p rep true t)
    else c :: collapseRuns p rep false t

def isNewlineChar (c : Char) : Bool := c == '\n'

def isCarriageChar (c : Char) : Bool := c == '\r'

/-- the punctuation class of `re.sub(r'\s+([.,;:!?])', r'\1')`. -/
def isPunctChar (c : Char) : Bool :=
  c == '.' || c == ',' || c == ';' || c == ':' || c == '!' || c == '?'

/-- One step of `re.sub(r'\s+([.,;:!?])', r'\1')`, processed from the right:
prepend `c` to the already-processed tail `r`, dropping `c` when it is
whitespace standing directly before a punctuation character.  Dropping
whitespace characters one by one from the right is equivalent to the regex's
deletion of each whole whitespace run before a punctuation character. -/
def rmAuxPrepend (c : Char) : List Char → List Char
  | [] => [c]
  | p :: rest =>
    if isSpaceChar c && isPunctChar p then p :: rest else c :: p :: rest

def rmSpaceBeforePunct : List Char → List Char
  | [] => []
  | c :: t => rmAuxPrepend c (rmSpaceBeforePunct t)

/-- Python `str.replace(a, b)` for single characters. -/
def replaceChar (a b : Char) (l : List Char) : List Char :=
  l.map fun c => if c == a then b else c

/-- `_normalize_text` on the character list, composing the stages innermost
first: strip, `\s+`-collapse, `\n+`-collapse, `\r+`-collapse, whitespace
removal before punctuation, the four identity `replace` calls, the second
`\s+`-collapse, final strip. -/
def normalizeChars (l : List Char) : List Char :=
  stripChars
    (collapseRuns isSpaceChar ' ' false
      (replaceChar '\'' '\'' (replaceChar '\'' '\''
        (replaceChar '"' '"' (replaceChar '"' '"'
          (rmSpaceBeforePunct
            (collapseRuns isCarriageChar ' ' false
              (collapseRuns isNewlineChar ' ' false
                (collapseRuns isSpaceChar ' ' false (stripChars l))))))))))

/-- `_normalize_text`. -/
def normalizeText (s : String) : String :=
  if s = "" then "" else ⟨normalizeChars s.data⟩

/-! Shape predicates satisfied by every normalizer output, and fixed-point
lemmas showing each stage is the identity on strings of that shape. -/

/-- no adjacent pair of the list satisfies `bad`. -/
def okPairs (bad : Char → Char → Bool) : List Char → Bool
  | a :: b :: t => !bad a b && okPairs bad (b :: t)
  | _ => true

def wsPair (a b : Char) : Bool := isSpaceChar a && isSpaceChar b

def wsPunctPair (a b : Char) : Bool := isSpaceChar a && isPunctChar b

/-- every whitespace character is a plain space. -/
def onlyPlainSpaces (l : List Char) : Bool :=
  l.all fun c => !isSpaceChar c || c == ' '

def edgesOk (l : List Char) : Bool :=
  (match l.head? with
   | some c => !isSpaceChar c
   | none => true) &&
  (match l.getLast? with
   | some c => !isSpaceChar c
   | none => true)

theorem okPairs_cons (bad : Char → Char → Bool) (c : Char) (l : List Char) :
    okPairs bad (c :: l) = true ↔
      (∀ d, l.head? = some d → bad c d = false) ∧ okPairs bad l = true := by
  cases l with
  | nil => simp [okPairs]
  | cons b t =>
    simp only [okPairs, Bool.and_eq_true, Bool.not_eq_true', List.head?_cons]
    constructor
    · rintro ⟨h1, h2⟩
      exact ⟨fun d hd => by cases hd; exact h1, h2⟩
    · rintro ⟨h1, h2⟩
      exact ⟨h1 b rfl, h2⟩

theorem mem_collapseRuns (p : Char → Bool) (rep : Char) :
    ∀ (b : Bool) (l : List Char) (c : Char), c ∈ collapseRuns p rep b l →
      c = rep ∨ (c ∈ l ∧ p c = false) := by
  intro b l
  induction l generalizing b with
  | nil => intro c h; simp [collapseRuns] at h
  | cons a t ih =>
    intro c h
    rw [collapseRuns] at h
    by_cases ha : p a = true
    · rw [if_pos ha] at h
      by_cases hb : b = true
      · rw [if_pos hb] at h
        rcases ih true c h with h1 | ⟨h1, h2⟩
        · exact Or.inl h1
        · exact Or.inr ⟨List.mem_cons_of_mem a h1, h2⟩
      · rw [if_neg hb] at h
        rcases List.mem_cons.mp h with rfl | h
        · exact Or.inl rfl
        · rcases ih true c h with h1 | ⟨h1, h2⟩
          · exact Or.inl h1
          · exact Or.inr ⟨List.mem_cons_of_mem a h1, h2⟩
    · rw [if_neg ha] at h
      rcases List.mem_cons.mp h with h0 | h
      · subst h0
        exact Or.inr ⟨List.mem_cons_self _ _, by simpa using ha⟩
      · rcases ih false c h with h1 | ⟨h1, h2⟩
        · exact Or.inl h1
        · exact Or.inr ⟨List.mem_cons_of_mem a h1, h2⟩

theorem collapseWS_onlyPlainSpaces (b : Bool) (l : List Char) :
    onlyPlainSpaces (collapseRuns isSpaceChar ' ' b l) = true := by
  rw [onlyPlainSpaces, List.all_eq_true]
  intro c hc
  rcases mem_collapseRuns isSpaceChar ' ' b l c hc with rfl | ⟨_, h2⟩
  · simp
  · simp [h2]

theorem collapseRuns_head_true (p : Char → Bool) (rep : Char) :
    ∀ (l : List Char) (c : Char),
      (collapseRuns p rep true l).head? = some c → p c = false := by
  intro l
  induction l with
  | nil => intro c h; simp [collapseRuns] at h
  | cons a t ih =>
    intro c h
    rw [collapseRuns] at h
    by_cases ha : p a = true
    · rw [if_pos ha, if_pos rfl] at h
      exact ih c h
    · rw [if_neg ha] at h
      rw [List.head?_cons, Option.some_inj] at h
      subst h
      simpa using ha

theorem collapseWS_okPairs (b : Bool) (l : List Char) :
    okPairs wsPair (collapseRuns isSpaceChar ' ' b l) = true := by
  induction l generalizing b with
  | nil => simp [collapseRuns, okPairs]
  | cons a t ih =>
    rw [collapseRuns]
    by_cases ha : isSpaceChar a = true
    · rw [if_pos ha]
      by_cases hb : b = true
      · rw [if_pos hb]; exact ih true
      · rw [if_neg hb]
        rw [okPairs_cons]
        refine ⟨?_, ih true⟩
        intro d hd
        have := collapseRuns_head_true isSpaceChar ' ' t d hd
        simp [wsPair, this]
    · rw [if_neg ha]
      rw [okPairs_cons]
      refine ⟨?_, ih false⟩
      intro d _
      simp [wsPair, ha]

theorem collapseRuns_no_match (p : Char → Bool) (rep : Char) :
    ∀ (b : Bool) (l : List Char), (∀ c ∈ l, p c = false) →
      collapseRuns p rep b l = l := by
  intro b l
  induction l generalizing b with
  | nil => intro _; rfl
  | cons a t ih =>
    intro h
    rw [collapseRuns, if_neg (by simp [h a (List.mem_cons_self a t)])]
    rw [ih false fun c hc => h c (List.mem_cons_of_mem a hc)]

theorem onlyPlainSpaces_no_newline (l : List Char)
    (h : onlyPlainSpaces l = true) : ∀ c ∈ l, isNewlineChar c = false := by
  intro c hc
  rw [onlyPlainSpaces, List.all_eq_true] at h
  have h2 := h c hc
  by_cases hn : c = '\n'
  · subst hn
    simp [isSpaceChar] at h2
  · simp [isNewlineChar, hn]

theorem onlyPlainSpaces_no_carriage (l : List Char)
    (h : onlyPlainSpaces l = true) : ∀ c ∈ l, isCarriageChar c = false := by
  intro c hc
  rw [onlyPlainSpaces, List.all_eq_true] at h
  have h2 := h c hc
  by_cases hn : c = '\r'
  · subst hn
    simp [isSpaceChar] at h2
  · simp [isCarriageChar, hn]

theorem mem_rmAuxPrepend (c : Char) (r : List Char) (x : Char)
    (h : x ∈ rmAuxPrepend c r) : x = c ∨ x ∈ r := by
  cases r with
  | nil =>
    rw [rmAuxPrepend] at h
    simp at h
    exact Or.inl h
  | cons p rest =>
    rw [rmAuxPrepend] at h
    by_cases hc : (isSpaceChar c && isPunctChar p) = true
    · rw [if_pos hc] at h
      exact Or.inr h
    · rw [if_neg hc] at h
      rcases List.mem_cons.mp h with h0 | h2
      · exact Or.inl h0
      · exact Or.inr h2

theorem head_rmAuxPrepend (c : Char) (r : List Char) (d : Char)
    (h : (rmAuxPrepend c r).head? = some d) :
    d = c ∨ (r.head? = some d ∧ isPunctChar d = true) := by
  cases r with
  | nil =>
    rw [rmAuxPrepend] at h
    rw [List.head?_cons, Option.some_inj] at h
    exact Or.inl h.symm
  | cons p rest =>
    rw [rmAuxPrepend] at h
    by_cases hc : (isSpaceChar c && isPunctChar p) = true
    · rw [if_pos hc] at h
      rw [List.head?_cons, Option.some_inj] at h
      subst h
      exact Or.inr ⟨rfl, (Bool.and_eq_true _ _ |>.mp hc).2⟩
    · rw [if_neg hc] at h
      rw [List.head?_cons, Option.some_inj] at h
      exact Or.inl h.symm

theorem mem_rmSpaceBeforePunct :
    ∀ (l : List Char) (c : Char), c ∈ rmSpaceBeforePunct l → c ∈ l := by
  intro l
  induction l with
  | nil => intro c h; simp [rmSpaceBeforePunct] at h
  | cons a t ih =>
    intro c h
    rw [rmSpaceBeforePunct] at h
    rcases mem_rmAuxPrepend a _ c h with h0 | h2
    · subst h0
      exact List.mem_cons_self _ _
    · exact List.mem_cons_of_mem a (ih c h2)

theorem head_rmSpaceBeforePunct (l : List Char) (d : Char)
    (h : (rmSpaceBeforePunct l).head? = some d) :
    l.head? = some d ∨ isPunctChar d = true := by
  cases l with
  | nil => simp [rmSpaceBeforePunct] at h
  | cons a t =>
    rw [rmSpaceBeforePunct] at h
    rcases head_rmAuxPrepend a _ d h with h0 | ⟨_, h2⟩
    · subst h0
      exact Or.inl rfl
    · exact Or.inr h2

theorem isPunctChar_not_space (c : Char) (h : isPunctChar c = true) :
    isSpaceChar c = false := by
  rw [isPunctChar] at h
  simp only [Bool.or_eq_true, beq_iff_eq] at h
  rcases h with ((((h | h) | h) | h) | h) | h <;> subst h <;> rfl

theorem rm_wsPunctPair (l : List Char) :
    okPairs wsPunctPair (rmSpaceBeforePunct l) = true := by
  induction l with
  | nil => rfl
  | cons a t ih =>
    rw [rmSpaceBeforePunct]
    cases hr : rmSpaceBeforePunct t with
    | nil => rw [rmAuxPrepend]; rfl
    | cons p rest =>
      rw [hr] at ih
      rw [rmAuxPrepend]
      by_cases hc : (isSpaceChar a && isPunctChar p) = true
      · rw [if_pos hc]; exact ih
      · rw [if_neg hc]
        rw [okPairs_cons]
        refine ⟨?_, ih⟩
        intro d hd
        rw [List.head?_cons, Option.some_inj] at hd
        subst hd
        rw [wsPunctPair]
        exact Bool.eq_false_iff.mpr hc

theorem rm_wsPair (l : List Char) (h : okPairs wsPair l = true) :
    okPairs wsPair (rmSpaceBeforePunct l) = true := by
  induction l with
  | nil => rfl
  | cons a t ih =>
    rcases (okPairs_cons wsPair a t).mp h with ⟨hhead, htail⟩
    have ihr := ih htail
    rw [rmSpaceBeforePunct]
    cases hr : rmSpaceBeforePunct t with
    | nil => rw [rmAuxPrepend]; rfl
    | cons p rest =>
      rw [hr] at ihr
      rw [rmAuxPrepend]
      by_cases hc : (isSpaceChar a && isPunctChar p) = true
      · rw [if_pos hc]; exact ihr
      · rw [if_neg hc]
        rw [okPairs_cons]
        refine ⟨?_, ihr⟩
        intro d hd
        rw [List.head?_cons, Option.some_inj] at hd
        subst hd
        rcases head_rmSpaceBeforePunct t p (by rw [hr]; rfl) with hh | hh
        · exact hhead p hh
        · simp [wsPair, isPunctChar_not_space p hh]

theorem replaceChar_self (a : Char) (l : List Char) : replaceChar a a l = l := by
  rw [replaceChar]
  conv_rhs => rw [← List.map_id l]
  apply List.map_congr_left
  intro c _
  by_cases h : c = a
  · subst h; simp
  · simp [h]

theorem okPairs_dropWhile (bad : Char → Char → Bool) (p : Char → Bool) :
    ∀ l : List Char, okPairs bad l = true → okPairs bad (l.dropWhile p) = true := by
  intro l
  induction l with
  | nil => intro h; simpa using h
  | cons a t ih =>
    intro h
    rcases (okPairs_cons bad a t).mp h with ⟨_, htail⟩
    rw [List.dropWhile_cons]
    by_cases ha : p a = true
    · rw [if_pos ha]
      exact ih htail
    · rw [if_neg ha]
      exact h

theorem okPairs_append_left (bad : Char → Char → Bool) :
    ∀ (l1 l2 : List Char), okPairs bad (l1 ++ l2) = true → okPairs bad l1 = true := by
  intro l1
  induction l1 with
  | nil => intro l2 _; rfl
  | cons a t ih =>
    intro l2 h
    rw [List.cons_append] at h
    rcases (okPairs_cons bad a (t ++ l2)).mp h with ⟨hhead, htail⟩
    rw [okPairs_cons]
    refine ⟨?_, ih l2 htail⟩
    intro d hd
    apply hhead
    cases t with
    | nil => simp at hd
    | cons b r => simpa using hd

theorem stripChars_prefix (l : List Char) :
    ∃ r, l.dropWhile isSpaceChar = stripChars l ++ r := by
  rw [stripChars, dropEndWhile]
  refine ⟨((l.dropWhile isSpaceChar).reverse.takeWhile isSpaceChar).reverse, ?_⟩
  have h := List.takeWhile_append_dropWhile
    (p := isSpaceChar) (l := (l.dropWhile isSpaceChar).reverse)
  calc l.dropWhile isSpaceChar
      = ((l.dropWhile isSpaceChar).reverse).reverse := by rw [List.reverse_reverse]
    _ = ((l.dropWhile isSpaceChar).reverse.takeWhile isSpaceChar ++
          (l.dropWhile isSpaceChar).reverse.dropWhile isSpaceChar).reverse := by rw [h]
    _ = ((l.dropWhile isSpaceChar).reverse.dropWhile isSpaceChar).reverse ++
          ((l.dropWhile isSpaceChar).reverse.takeWhile isSpaceChar).reverse := by
          rw [List.reverse_append]

theorem okPairs_stripChars (bad : Char → Char → Bool) (l : List Char)
    (h : okPairs bad l = true) : okPairs bad (stripChars l) = true := by
  have h1 := okPairs_dropWhile bad isSpaceChar l h
  rcases stripChars_prefix l with ⟨r, hr⟩
  rw [hr] at h1
  exact okPairs_append_left bad _ r h1

theorem mem_stripChars (l : List Char) (c : Char) (h : c ∈ stripChars l) : c ∈ l := by
  rcases stripChars_prefix l with ⟨r, hr⟩
  have h1 : c ∈ l.dropWhile isSpaceChar := by
    rw [hr]
    exact List.mem_append_left r h
  exact (List.dropWhile_sublist (p := isSpaceChar) (l := l)).mem h1

theorem onlyPlainSpaces_stripChars (l : List Char)
    (h : onlyPlainSpaces l = true) : onlyPlainSpaces (stripChars l) = true := by
  rw [onlyPlainSpaces, List.all_eq_true] at h ⊢
  exact fun c hc => h c (mem_stripChars l c hc)

theorem head_dropWhile (p : Char → Bool) :
    ∀ (l : List Char) (c : Char), (l.dropWhile p).head? = some c → p c = false := by
  intro l
  induction l with
  | nil => intro c h; simp at h
  | cons a t ih =>
    intro c h
    rw [List.dropWhile_cons] at h
    by_cases ha : p a = true
    · rw [if_pos ha] at h
      exact ih c h
    · rw [if_neg ha] at h
      rw [List.head?_cons, Option.some_inj] at h
      subst h
      simpa using ha

theorem edgesOk_stripChars (l : List Char) : edgesOk (stripChars l) = true := by
  rw [edgesOk, Bool.and_eq_true]
  constructor
  · cases hh : (stripChars l).head? with
    | none => rfl
    | some c =>
      have h2 : (l.dropWhile isSpaceChar).head? = some c := by
        rcases stripChars_prefix l with ⟨r, hr⟩
        rw [hr]
        cases hsc : stripChars l with
        | nil => rw [hsc] at hh; simp at hh
        | cons x xs =>
          rw [hsc] at hh
          rw [List.head?_cons, Option.some_inj] at hh
          subst hh
          simp
      simp [head_dropWhile isSpaceChar l c h2]
  · cases hh : (stripChars l).getLast? with
    | none => rfl
    | some c =>
      have h1 : (stripChars l).reverse.head? = some c := by
        rw [List.head?_reverse, hh]
      rw [stripChars, dropEndWhile, List.reverse_reverse] at h1
      simp [head_dropWhile isSpaceChar _ c h1]

theorem dropWhile_of_head (p : Char → Bool) (l : List Char)
    (h : ∀ c, l.head? = some c → p c = false) : l.dropWhile p = l := by
  cases l with
  | nil => rfl
  | cons a t =>
    rw [List.dropWhile_cons, if_neg (by simp [h a rfl])]

theorem stripChars_fix (l : List Char) (h : edgesOk l = true) : stripChars l = l := by
  rw [edgesOk, Bool.and_eq_true] at h
  rcases h with ⟨h1, h2⟩
  rw [stripChars, dropEndWhile]
  rw [dropWhile_of_head isSpaceChar l (by
    intro c hc
    rw [hc] at h1
    simpa using h1)]
  rw [dropWhile_of_head isSpaceChar l.reverse (by
    intro c hc
    rw [List.head?_reverse] at hc
    rw [hc] at h2
    simpa using h2)]
  rw [List.reverse_reverse]

theorem collapseWS_fix :
    ∀ l : List Char, onlyPlainSpaces l = true → okPairs wsPair l = true →
      collapseRuns isSpaceChar ' ' false l = l ∧
      ((∀ c, l.head? = some c → isSpaceChar c = false) →
        collapseRuns isSpaceChar ' ' true l = l) := by
  intro l
  induction l with
  | nil => exact fun _ _ => ⟨rfl, fun _ => rfl⟩
  | cons a t ih =>
    intro hp hw
    have hpt : onlyPlainSpaces t = true := by
      rw [onlyPlainSpaces, List.all_eq_true] at hp ⊢
      exact fun c hc => hp c (List.mem_cons_of_mem a hc)
    rcases (okPairs_cons wsPair a t).mp hw with ⟨hhead, htail⟩
    have iht := ih hpt htail
    by_cases ha : isSpaceChar a = true
    · have ha2 : a = ' ' := by
        rw [onlyPlainSpaces, List.all_eq_true] at hp
        have h3 := hp a (List.mem_cons_self a t)
        rw [ha] at h3
        simpa using h3
      have htrue : collapseRuns isSpaceChar ' ' true t = t := by
        apply iht.2
        intro c hc
        have h4 := hhead c hc
        rw [wsPair, ha] at h4
        simpa using h4
      constructor
      · rw [collapseRuns, if_pos ha, if_neg (by simp), htrue, ha2]
      · intro hcontra
        have h5 := hcontra a rfl
        rw [h5] at ha
        simp at ha
    · constructor
      · rw [collapseRuns, if_neg ha, iht.1]
      · intro _
        rw [collapseRuns, if_neg ha, iht.1]

theorem rm_fix (l : List Char) (h : okPairs wsPunctPair l = true) :
    rmSpaceBeforePunct l = l := by
  induction l with
  | nil => rfl
  | cons a t ih =>
    rcases (okPairs_cons wsPunctPair a t).mp h with ⟨hhead, htail⟩
    rw [rmSpaceBeforePunct, ih htail]
    cases t with
    | nil => rw [rmAuxPrepend]
    | cons p rest =>
      rw [rmAuxPrepend]
      have h2 := hhead p rfl
      rw [wsPunctPair] at h2
      rw [if_neg (by simp [h2])]

/-- the shape every normalizer output has. -/
def normalizedShape (l : List Char) : Bool :=
  onlyPlainSpaces l && okPairs wsPair l && okPairs wsPunctPair l && edgesOk l

theorem normalizeChars_shape (l : List Char) :
    normalizedShape (normalizeChars l) = true := by
  rw [normalizeChars]
  set t2 := collapseRuns isSpaceChar ' ' false (stripChars l) with ht2
  have hp2 : onlyPlainSpaces t2 = true := collapseWS_onlyPlainSpaces _ _
  have hw2 : okPairs wsPair t2 = true := collapseWS_okPairs _ _
  rw [collapseRuns_no_match isNewlineChar ' ' false t2 (onlyPlainSpaces_no_newline t2 hp2)]
  rw [collapseRuns_no_match isCarriageChar ' ' false t2 (onlyPlainSpaces_no_carriage t2 hp2)]
  set t5 := rmSpaceBeforePunct t2 with ht5
  have hp5 : onlyPlainSpaces t5 = true := by
    rw [onlyPlainSpaces, List.all_eq_true] at hp2 ⊢
    exact fun c hc => hp2 c (mem_rmSpaceBeforePunct t2 c hc)
  have hw5 : okPairs wsPair t5 = true := rm_wsPair t2 hw2
  have hq5 : okPairs wsPunctPair t5 = true := rm_wsPunctPair t2
  rw [replaceChar_self, replaceChar_self, replaceChar_self, replaceChar_self]
  rw [(collapseWS_fix t5 hp5 hw5).1]
  rw [normalizedShape]
  simp only [Bool.and_eq_true]
  refine ⟨⟨⟨?_, ?_⟩, ?_⟩, ?_⟩
  · exact onlyPlainSpaces_stripChars t5 hp5
  · exact okPairs_stripChars wsPair t5 hw5
  · exact okPairs_stripChars wsPunctPair t5 hq5
  · exact edgesOk_stripChars t5

theorem normalizeChars_fix (l : List Char) (h : normalizedShape l = true) :
    normalizeChars l = l := by
  rw [normalizedShape] at h
  simp only [Bool.and_eq_true] at h
  rcases h with ⟨⟨⟨hp, hw⟩, hq⟩, he⟩
  rw [normalizeChars]
  rw [stripChars_fix l he]
  rw [(collapseWS_fix l hp hw).1]
  rw [collapseRuns_no_match isNewlineChar ' ' false l (onlyPlainSpaces_no_newline l hp)]
  rw [collapseRuns_no_match isCarriageChar ' ' false l (onlyPlainSpaces_no_carriage l hp)]
  rw [rm_fix l hq]
  rw [replaceChar_self, replaceChar_self, replaceChar_self, replaceChar_self]
  rw [(collapseWS_fix l hp hw).1]
  rw [stripChars_fix l he]

/-- Claim C9: `_normalize_text` is idempotent — normalizing twice equals
normalizing once — and the empty input yields the empty output (the embedding
is a total Lean function, mirroring that the Python function never raises). -/
theorem normalize_idempotent :
    (∀ s : String, normalizeText (normalizeText s) = normalizeText s) ∧
    normalizeText "" = "" := by
  constructor
  · intro s
    rcases eq_or_ne s "" with hs | hs
    · subst hs; rfl
    · have hN : normalizeText s = ⟨normalizeChars s.data⟩ := by
        rw [normalizeText, if_neg hs]
      rw [hN]
      have hfix := normalizeChars_fix _ (normalizeChars_shape s.data)
      cases hm : normalizeChars s.data with
      | nil => rfl
      | cons c cs =>
        have hne : (⟨c :: cs⟩ : String) ≠ "" := by
          intro hcontra
          have : (c :: cs : List Char) = [] := congrArg String.data hcontra
          simp at this
        rw [normalizeText, if_neg hne]
        rw [hm] at hfix
        exact congrArg String.mk hfix
  · rfl

/-! ## Phase-3 context selection and assembly
(`extract.py` lines 244–296; `embedding_service.py`
`find_similar_transcripts_optimized` / `find_similar_transcripts_with_reranker`;
`reranker_service.py` `rerank_transcripts`;
`smart_context_selector.py` `build_memory_context_with_extractions`)

The transcript collection is the list of its records (each carrying its native
distance to the fixed query embedding); `collection.query(..., where=…)`
returns the `n_results` nearest records of the requested owner partition.  The
cross-encoder is the black-box `predict` parameter. -/

/-- `transcript_collection.query(query_embeddings=…, n_results=n,
where={"user_id": owner})`. -/
def chromaQueryT (idx : List RawHit) (owner n : ℕ) : List RawHit :=
  (sortBy (ascBy RawHit.distance) (idx.filter fun r => r.userId == owner)).take n

/-- `find_similar_transcripts_optimized`: over-fetch `min(limit·2, 50)` raw
results, convert distances, filter by threshold, sort descending, truncate. -/
def findSimilarTranscriptsOptimized (idx : List RawHit) (owner limit : ℕ)
    (thr : ℚ) : List Hit :=
  (sortBy (descBy Hit.similarityScore)
    (((chromaQueryT idx owner (min (limit * 2) 50)).map scoreRawHit).filter
      fun h => decide (thr ≤ h.similarityScore))).take limit

/-- `rerank_transcripts`: score each candidate with the cross-encoder, attach
`combined = 0.3·original + 0.7·reranker`, sort by it, truncate to `top_k`. -/
def rerankTranscripts (predict : String → String → ℚ) (query : String)
    (cands : List Hit) (topK : ℕ) : List Hit :=
  if cands = [] then cands.take topK
  else
    (sortBy (descBy fun c => c.combinedScore.getD 0)
      (cands.map fun c =>
        { c with rerankerScore := some (predict query c.text)
                 combinedScore := some (combinedOf c.similarityScore (predict query c.text)) })).take
      topK

/-- `find_similar_transcripts_with_reranker`: over-fetch `limit·3` initial
candidates, then rerank (when a reranker is loaded and requested) or truncate. -/
def findSimilarTranscriptsWithReranker (idx : List RawHit)
    (predict : String → String → ℚ) (hasReranker useReranker : Bool)
    (query : String) (owner limit : ℕ) (thr : ℚ) : List Hit :=
  if findSimilarTranscriptsOptimized idx owner (limit * 3) thr = [] then []
  else if useReranker && hasReranker then
    rerankTranscripts predict query
      (findSimilarTranscriptsOptimized idx owner (limit * 3) thr) limit
  else (findSimilarTranscriptsOptimized idx owner (limit * 3) thr).take limit

/-- Phase 3 of `extract_medical_actions` (lines 244–296): the reranked search
over the requesting owner's partition with `limit=5, threshold=0.3`, each hit
turned into a `ContextCandidate` whose similarity is the combined score when
present, whose `user_id` comes from the stored record's metadata, and whose
extraction payload is the stored `ExtractionResult` for the hit, if any. -/
def phase3Candidates (idx : List RawHit) (predict : String → String → ℚ)
    (lookupX : ℕ → Option ExtractionData) (owner : ℕ) (query : String) :
    List ContextCandidate :=
  (findSimilarTranscriptsWithReranker idx predict true true query owner 5 (3/10)).map
    fun h =>
      { transcriptId := h.transcriptId
        text := h.text
        similarityScore := h.combinedScore.getD h.similarityScore
        userId := h.userId
        extractionData := lookupX h.transcriptId }

/-- `text[:500] + "..." if len(text) > 500 else text`. -/
def renderSnippet (t : String) : String :=
  if 500 < t.length then (⟨t.data.take 500⟩ : String) ++ "..." else t

/-- the per-candidate `EXTRACTIONS:` lines, at most 2 items per category. -/
def extractionLines : Option ExtractionData → List String
  | none => []
  | some d =>
    "EXTRACTIONS:" ::
      ((if d.followUpTasks = [] then [] else
          "Follow-up Tasks:" ::
            (d.followUpTasks.take 2).map fun it =>
              "  - " ++ it.description.getD "N/A" ++ " (Priority: " ++
                it.priority.getD "N/A" ++ ")") ++
       (if d.medicationInstructions = [] then [] else
          "Medication Instructions:" ::
            (d.medicationInstructions.take 2).map fun it =>
              "  - " ++ it.medicationName.getD "N/A" ++ " " ++ it.dosage.getD "N/A" ++
                " " ++ it.frequency.getD "N/A") ++
       (if d.clientReminders = [] then [] else
          "Client Reminders:" ::
            (d.clientReminders.take 2).map fun it =>
              "  - " ++ it.description.getD "N/A" ++ " (" ++
                it.reminderType.getD "N/A" ++ ")") ++
       (if d.clinicianTodos = [] then [] else
          "Clinician To-Dos:" ::
            (d.clinicianTodos.take 2).map fun it =>
              "  - " ++ it.description.getD "N/A" ++ " (" ++
                it.taskType.getD "N/A" ++ ")"))

def exampleCaseBlock (i : ℕ) (c : ContextCandidate) : List String :=
  ("Example Case " ++ toString (i + 1) ++ ":") :: "TRANSCRIPT:" ::
    renderSnippet c.text :: (extractionLines c.extractionData ++ [""])

def previousVisitBlock (i : ℕ) (c : ContextCandidate) : List String :=
  ("Previous Visit " ++ toString (i + 1) ++ " (Transcript ID: " ++
      toString c.transcriptId ++ "):") :: "TRANSCRIPT:" ::
    renderSnippet c.text :: (extractionLines c.extractionData ++ [""])

/-- the `RELEVANT EXAMPLE CASES:` section — rendered only when some candidate
belongs to the shared reference pool (owner id 999), limited to 3 cases. -/
def exampleSection (cands : List ContextCandidate) : List String :=
  if cands.filter (fun c => c.userId == 999) = [] then []
  else
    "RELEVANT EXAMPLE CASES:" ::
      (((cands.filter fun c => c.userId == 999).take 3).enum.map
        fun p => exampleCaseBlock p.1 p.2).flatten

/-- the `PREVIOUS VISITS:` section, limited to 3 visits. -/
def previousSection (cands : List ContextCandidate) : List String :=
  if cands.filter (fun c => !(c.userId == 999)) = [] then []
  else
    "PREVIOUS VISITS:" ::
      (((cands.filter fun c => !(c.userId == 999)).take 3).enum.map
        fun p => previousVisitBlock p.1 p.2).flatten

/-- `build_memory_context_with_extractions` (the unused `query_text` parameter
is kept for fidelity). -/
def buildMemoryContextWithExtractions (queryText : String)
    (cands : List ContextCandidate) : String :=
  if cands = [] then ""
  else String.intercalate "\n" (exampleSection cands ++ previousSection cands)

theorem mem_chromaQueryT (idx : List RawHit) (owner n : ℕ) (r : RawHit)
    (h : r ∈ chromaQueryT idx owner n) : r.userId = owner := by
  rw [chromaQueryT] at h
  have h1 := List.take_subset _ _ h
  have h2 := (mem_sortBy _ _ _).mp h1
  have h3 := List.of_mem_filter h2
  simpa using h3

theorem mem_findSimilarTranscriptsOptimized (idx : List RawHit) (owner limit : ℕ)
    (thr : ℚ) (h : Hit) (hm : h ∈ findSimilarTranscriptsOptimized idx owner limit thr) :
    h.userId = owner := by
  rw [findSimilarTranscriptsOptimized] at hm
  have h1 := List.take_subset _ _ hm
  have h2 := (mem_sortBy _ _ _).mp h1
  have h3 := List.mem_of_mem_filter h2
  rcases List.mem_map.mp h3 with ⟨r, hr, rfl⟩
  exact mem_chromaQueryT idx owner _ r hr

theorem mem_rerankTranscripts (predict : String → String → ℚ) (query : String)
    (cands : List Hit) (topK : ℕ) (h : Hit)
    (hm : h ∈ rerankTranscripts predict query cands topK) :
    ∃ c ∈ cands, h.userId = c.userId := by
  rw [rerankTranscripts] at hm
  by_cases hc : cands = []
  · rw [if_pos hc] at hm
    subst hc
    simp at hm
  · rw [if_neg hc] at hm
    have h1 := List.take_subset _ _ hm
    have h2 := (mem_sortBy _ _ _).mp h1
    rcases List.mem_map.mp h2 with ⟨c, hcm, rfl⟩
    exact ⟨c, hcm, rfl⟩

theorem mem_findSimilarTranscriptsWithReranker (idx : List RawHit)
    (predict : String → String → ℚ) (hasReranker useReranker : Bool)
    (query : String) (owner limit : ℕ) (thr : ℚ) (h : Hit)
    (hm : h ∈ findSimilarTranscriptsWithReranker idx predict hasReranker useReranker
      query owner limit thr) : h.userId = owner := by
  rw [findSimilarTranscriptsWithReranker] at hm
  by_cases h0 : findSimilarTranscriptsOptimized idx owner (limit * 3) thr = []
  · rw [if_pos h0] at hm
    simp at hm
  · rw [if_neg h0] at hm
    by_cases h1 : (useReranker && hasReranker) = true
    · rw [if_pos h1] at hm
      rcases mem_rerankTranscripts predict query _ limit h hm with ⟨c, hcm, he⟩
      rw [he]
      exact mem_findSimilarTranscriptsOptimized idx owner _ thr c hcm
    · rw [if_neg h1] at hm
      exact mem_findSimilarTranscriptsOptimized idx owner _ thr h (List.take_subset _ _ hm)

/-- Claim C10: phase-3 retrieval queries only the requesting owner's partition,
so for an owner other than the reserved reference-pool id 999 every assembled
candidate carries that owner's id, the `RELEVANT EXAMPLE CASES:` section is
never rendered, and the memory context consists of the `PREVIOUS VISITS:`
section alone. -/
theorem owner_partition_no_reference_section (idx : List RawHit)
    (predict : String → String → ℚ) (lookupX : ℕ → Option ExtractionData)
    (owner : ℕ) (query : String) (howner : owner ≠ 999) :
    (∀ c ∈ phase3Candidates idx predict lookupX owner query, c.userId = owner) ∧
    exampleSection (phase3Candidates idx predict lookupX owner query) = [] ∧
    buildMemoryContextWithExtractions query (phase3Candidates idx predict lookupX owner query) =
      (if phase3Candidates idx predict lookupX owner query = [] then ""
       else String.intercalate "\n"
         (previousSection (phase3Candidates idx predict lookupX owner query))) := by
  have hmem : ∀ c ∈ phase3Candidates idx predict lookupX owner query, c.userId = owner := by
    intro c hc
    rw [phase3Candidates] at hc
    rcases List.mem_map.mp hc with ⟨h, hh, rfl⟩
    exact mem_findSimilarTranscriptsWithReranker idx predict true true query owner 5 (3/10) h hh
  have hfil : (phase3Candidates idx predict lookupX owner query).filter
      (fun c => c.userId == 999) = [] := by
    rw [List.filter_eq_nil_iff]
    intro c hc
    have := hmem c hc
    simp [this, howner]
  have hex : exampleSection (phase3Candidates idx predict lookupX owner query) = [] := by
    rw [exampleSection, if_pos hfil]
  refine ⟨hmem, hex, ?_⟩
  rw [buildMemoryContextWithExtractions, hex, List.nil_append]

/-- A one-record index for the `owner_partition_no_reference_section` witness. -/
def demoP3Idx : List RawHit :=
  [{ distance := 1/5, transcriptId := 7, text := "note", userId := 1 }]

/-- Witness for `owner_partition_no_reference_section` on a concrete owner-1
index: no reference-example section is rendered. -/
theorem owner_partition_no_reference_section_witness :
    ((1 : ℕ) ≠ 999) ∧
    exampleSection (phase3Candidates demoP3Idx (fun _ _ => 1/2) (fun _ => none) 1 "q") = [] :=
  ⟨by decide,
   (owner_partition_no_reference_section demoP3Idx (fun _ _ => 1/2) (fun _ => none) 1 "q"
     (by decide)).2.1⟩

end VetRec
